import Mathlib

set_option maxRecDepth 100000

/-!
Verification of the log-classifier script `process.py`.

The script makes a single forward pass over the lines of a log file.  Lines
tagged `[INFO]` (from the 9th such line onward) are written to an info output
and matched against two compiled regular expressions; lines tagged `[DEBUG]`
are written to a debug output.  Matched events are checked against a
reference value (the script's `decide_value`, initialised to the sentinel
`-1` and set by the first matched event), per-id formatted lines are stored
in a dict `node_info`, a `concurrency` flag records whether any event ever
disagreed with the reference, and a timing accumulator sums the times of
first-seen consistent leader events.  At end of stream a summary is written.

The embedding below is a direct translation:
* the two regular expressions are embedded as token lists and matched by a
  backtracking matcher `mtch` that follows Python `re.search` semantics
  (leftmost match position, greedy quantifiers tried longest-first);
* the per-line loop body is `stepLine`, the event-processing core of the
  two branches is `stepEvent`; machine state is the `Core`/`St` structures
  whose fields keep the Python variable names;
* the sentinel `-1` of `decide_value` is modelled as `none` (the script
  compares an `int` sentinel with `str` match groups, and `-1 != v` is true
  for every matched group `v`, exactly as `none ≠ some v`);
* Python dict `node_info` is modelled as an association list; insertion
  order is irrelevant because the summary iterates `sorted(node_info)`;
* the summary is a list of `SLine`; the single line that interpolates the
  float `time_sum / time_count` is modelled by the constructor
  `SLine.avgTime` carrying the exact rational quotient (Python float
  division and float formatting abstracted to the exact value), and the
  `ZeroDivisionError` that Python raises when `time_count == 0` is the
  explicit error value `PyError.zeroDivisionError`;
* output files are lists of lines (each written line of the script carries
  its trailing newline unchanged, so the list of lines determines the file).
-/

/-- Tokens of the two embedded regular expressions: a literal character,
a captured digit group `(\d+)`, an uncaptured digit run `\d+`, and `.*`.
`grpCont`/`digCont` are the internal states of a partially consumed digit
run (the digits consumed so far, for a captured group). -/
inductive Tok where
  | lit (c : Char)
  | grp
  | grpCont (acc : List Char)
  | dig
  | digCont
  | star
deriving DecidableEq

/-- First-success choice between two alternatives of the backtracking
matcher (the higher-priority alternative wins when it matches). -/
def alt {α : Type} : Option α → Option α → Option α
  | some x, _ => some x
  | none, b => b

/-- Backtracking matcher at a fixed start position, following Python `re`
semantics: alternatives are tried greedily (a quantifier consumes as much
as possible first, backtracking on failure), and the result is the list of
captured digit groups of the first alternative that matches.  A trailing
remainder of the subject is always allowed (`re.search` is not anchored at
the end). `.*` does not consume a newline character. -/
def mtch : List Tok → List Char → Option (List (List Char))
  | [], _ => some []
  | Tok.lit _ :: _, [] => none
  | Tok.lit c :: ts, c2 :: cs => if c = c2 then mtch ts cs else none
  | Tok.grp :: _, [] => none
  | Tok.grp :: ts, c :: cs =>
      if c.isDigit then mtch (Tok.grpCont [c] :: ts) cs else none
  | Tok.grpCont acc :: ts, [] => (mtch ts []).map (fun gs => acc :: gs)
  | Tok.grpCont acc :: ts, c :: cs =>
      if c.isDigit then
        alt (mtch (Tok.grpCont (acc ++ [c]) :: ts) cs)
          ((mtch ts (c :: cs)).map (fun gs => acc :: gs))
      else (mtch ts (c :: cs)).map (fun gs => acc :: gs)
  | Tok.dig :: _, [] => none
  | Tok.dig :: ts, c :: cs =>
      if c.isDigit then mtch (Tok.digCont :: ts) cs else none
  | Tok.digCont :: ts, [] => mtch ts []
  | Tok.digCont :: ts, c :: cs =>
      if c.isDigit then alt (mtch (Tok.digCont :: ts) cs) (mtch ts (c :: cs))
      else mtch ts (c :: cs)
  | Tok.star :: ts, [] => mtch ts []
  | Tok.star :: ts, c :: cs =>
      if c = '\n' then mtch ts (c :: cs)
      else alt (mtch (Tok.star :: ts) cs) (mtch ts (c :: cs))
termination_by ts cs => (cs.length, ts.length)

/-- Search, as in Python `re.search`: try a match starting at every position of the subject,
leftmost position first. -/
def srch (ts : List Tok) (cs : List Char) : Option (List (List Char)) :=
  match mtch ts cs with
  | some gs => some gs
  | none =>
      match cs with
      | [] => none
      | _ :: cs2 => srch ts cs2
termination_by cs.length

/-- The matcher again, with an explicit fuel counter so that it is
structurally recursive (and hence evaluates inside the kernel).  Each
recursive call of `mtch` strictly decreases `(cs.length, ts.length)`
lexicographically and never lengthens the token list, so the recursion
depth is below `(cs.length + 1) * (ts.length + 1)`; with at least that
much fuel, `mtchF` coincides with `mtch` (theorem `mtchF_eq_mtch`). -/
def mtchF : Nat → List Tok → List Char → Option (List (List Char))
  | 0, _, _ => none
  | _ + 1, [], _ => some []
  | _ + 1, Tok.lit _ :: _, [] => none
  | f + 1, Tok.lit c :: ts, c2 :: cs => if c = c2 then mtchF f ts cs else none
  | _ + 1, Tok.grp :: _, [] => none
  | f + 1, Tok.grp :: ts, c :: cs =>
      if c.isDigit then mtchF f (Tok.grpCont [c] :: ts) cs else none
  | f + 1, Tok.grpCont acc :: ts, [] => (mtchF f ts []).map (fun gs => acc :: gs)
  | f + 1, Tok.grpCont acc :: ts, c :: cs =>
      if c.isDigit then
        alt (mtchF f (Tok.grpCont (acc ++ [c]) :: ts) cs)
          ((mtchF f ts (c :: cs)).map (fun gs => acc :: gs))
      else (mtchF f ts (c :: cs)).map (fun gs => acc :: gs)
  | _ + 1, Tok.dig :: _, [] => none
  | f + 1, Tok.dig :: ts, c :: cs =>
      if c.isDigit then mtchF f (Tok.digCont :: ts) cs else none
  | f + 1, Tok.digCont :: ts, [] => mtchF f ts []
  | f + 1, Tok.digCont :: ts, c :: cs =>
      if c.isDigit then alt (mtchF f (Tok.digCont :: ts) cs) (mtchF f ts (c :: cs))
      else mtchF f ts (c :: cs)
  | f + 1, Tok.star :: ts, [] => mtchF f ts []
  | f + 1, Tok.star :: ts, c :: cs =>
      if c = '\n' then mtchF f ts (c :: cs)
      else alt (mtchF f (Tok.star :: ts) cs) (mtchF f ts (c :: cs))

/-- Search (Python `re.search`) with the fueled matcher; the same fuel works at every start
position because the depth bound shrinks with the subject. -/
def srchF (f : Nat) (ts : List Tok) : List Char → Option (List (List Char))
  | [] => mtchF f ts []
  | c :: cs =>
      match mtchF f ts (c :: cs) with
      | some gs => some gs
      | none => srchF f ts cs

/-- Sufficient fuel for a whole search over the subject. -/
def fuelFor (ts : List Tok) (cs : List Char) : Nat :=
  (cs.length + 1) * (ts.length + 1)

/-- A string of literal tokens. -/
def lits (s : String) : List Tok := s.data.map Tok.lit

/-- Source: `pattern1 = re.compile(r'\[INFO\].*\[akka:\/\/system\/user\/Actor(\d+)\].*DECIDE from.*proposal \[(\d+)\]')` -/
def pattern1 : List Tok :=
  lits "[INFO]" ++ [Tok.star] ++ lits "[akka://system/user/Actor" ++ [Tok.grp] ++
    lits "]" ++ [Tok.star] ++ lits "DECIDE from" ++ [Tok.star] ++
    lits "proposal [" ++ [Tok.grp] ++ lits "]"

/-- Source: `pattern2 = re.compile(r'\[INFO\].*\[akka:\/\/system\/user\/Actor\d+\].*Process \[(\d+)\].*value \[(\d+)\] ballot.*: (\d+)ms')` -/
def pattern2 : List Tok :=
  lits "[INFO]" ++ [Tok.star] ++ lits "[akka://system/user/Actor" ++ [Tok.dig] ++
    lits "]" ++ [Tok.star] ++ lits "Process [" ++ [Tok.grp] ++ lits "]" ++
    [Tok.star] ++ lits "value [" ++ [Tok.grp] ++ lits "] ballot" ++
    [Tok.star] ++ lits ": " ++ [Tok.grp] ++ lits "ms"

/-- Whether a pattern matches somewhere in the line (`search` succeeds). -/
def matchesPat (p : List Tok) (line : String) : Bool :=
  (srchF (fuelFor p line.data) p line.data).isSome

/-- Python `int` on a digit string (the regex groups are all digit runs). -/
def digitsToNat (l : List Char) : Nat :=
  l.foldl (fun n c => n * 10 + (c.toNat - 48)) 0

/-- Python `int` on a digit string. -/
def pyInt (s : String) : Nat := digitsToNat s.data

/-- Parse via `pattern1.search(line)` together with the group extraction
`(int(match1.group(1)), match1.group(2))`. -/
def parse1 (line : String) : Option (Nat × String) :=
  match srchF (fuelFor pattern1 line.data) pattern1 line.data with
  | some [a, v] => some (digitsToNat a, String.mk v)
  | _ => none

/-- Parse via `pattern2.search(line)` together with the group extraction
`(int(match2.group(1)), match2.group(2), match2.group(3))`. -/
def parse2 (line : String) : Option (Nat × String × String) :=
  match srchF (fuelFor pattern2 line.data) pattern2 line.data with
  | some [p, v, t] => some (digitsToNat p, String.mk v, String.mk t)
  | _ => none

/-- The events the script extracts: a Pattern-A decide event
`(actor, value)` or a Pattern-B leader event `(process, value, time)`.
Values and times are kept as the raw matched strings, as in the script. -/
inductive Event where
  | decide (actor : Nat) (value : String)
  | leader (process : Nat) (value : String) (time : String)
deriving DecidableEq

/-- The id of an event (actor id or process id; one shared namespace). -/
def idOf : Event → Nat
  | Event.decide a _ => a
  | Event.leader p _ _ => p

/-- The matched value string of an event. -/
def valOf : Event → String
  | Event.decide _ v => v
  | Event.leader _ v _ => v

/-- The `if match1: ... elif match2: ...` dispatch: Pattern A is tried
first; Pattern B is consulted only when Pattern A fails. -/
def classify (line : String) : Option Event :=
  match parse1 line with
  | some (a, v) => some (Event.decide a v)
  | none =>
      match parse2 line with
      | some (p, v, t) => some (Event.leader p v t)
      | none => none

/-- Python `line.startswith(tag)`. -/
def startsTag (tag line : String) : Bool :=
  tag.data.isPrefixOf line.data

/-- Formatted line of a consistent Pattern-A event (source line 52). -/
def fmtDecide (actor : Nat) (value : String) : String :=
  "NODE\t[" ++ toString actor ++ "]\tVALUE\t[" ++ value ++ "]\n"

/-- Formatted line of an inconsistent Pattern-A event (source line 47). -/
def fmtDecideUncheck (actor : Nat) (value : String) : String :=
  "NODE\t[" ++ toString actor ++ "]\tVALUE\t[" ++ value ++
    "]\t<------------------ uncheck\n"

/-- Formatted line of a consistent Pattern-B event (source line 68). -/
def fmtLeader (process : Nat) (value : String) (time : String) : String :=
  "LEADER\t[" ++ toString process ++ "]\tVALUE\t[" ++ value ++ "]\tTIME[" ++
    time ++ "ms]\n"

/-- Formatted line of an inconsistent Pattern-B event (source line 63). -/
def fmtLeaderUncheck (process : Nat) (value : String) (time : String) : String :=
  "LEADER\t[" ++ toString process ++ "]\tVALUE\t[" ++ value ++ "]\tTIME[" ++
    time ++ "ms]\t<---------- uncheck\n"

/-- The formatted line stored for a consistent, first-seen event. -/
def consFmt : Event → String
  | Event.decide a v => fmtDecide a v
  | Event.leader p v t => fmtLeader p v t

/-- The formatted line stored for an inconsistent event. -/
def uncheckFmt : Event → String
  | Event.decide a v => fmtDecideUncheck a v
  | Event.leader p v t => fmtLeaderUncheck p v t

/-- The mutable state of the script that the event branches touch, with the
script's variable names.  `decide_value = none` models the `-1` sentinel. -/
structure Core where
  decide_value : Option String
  decide_value_write : Bool
  concurrency : Bool
  node_number : List Nat
  node_info : List (Nat × String)
  time_sum : Nat
  time_count : Nat
deriving DecidableEq

/-- Source `node_number.add(a)` (a set: only membership is observable). -/
def addNode (l : List Nat) (a : Nat) : List Nat :=
  if a ∈ l then l else l ++ [a]

/-- Assignment `node_info[k] = v` on the association list modelling the dict: the
binding for `k` is replaced.  (The dict's insertion order is irrelevant:
the summary iterates keys in sorted order.) -/
def updateInfo (m : List (Nat × String)) (k : Nat) (v : String) :
    List (Nat × String) :=
  (k, v) :: m.filter (fun p => ¬ p.1 = k)

/-- Read of `node_info[k]` (as an option; the script only reads existing keys). -/
def lookupInfo (m : List (Nat × String)) (k : Nat) : Option String :=
  (m.find? (fun p => p.1 == k)).map Prod.snd

/-- The body of the `if match1:` branch (source lines 39–53) and of the
`elif match2:` branch (source lines 54–71), as one function on events. -/
def stepEvent (s : Core) (e : Event) : Core :=
  match e with
  | Event.decide actor value =>
      let s1 :=
        if s.decide_value_write = false ∧ s.decide_value = none then
          { s with decide_value := some value, decide_value_write := true }
        else s
      let s2 :=
        if s1.decide_value ≠ some value then
          { s1 with
              node_info := updateInfo s1.node_info actor (fmtDecideUncheck actor value),
              concurrency := false }
        else if actor ∈ s1.node_number then s1
        else { s1 with node_info := updateInfo s1.node_info actor (fmtDecide actor value) }
      { s2 with node_number := addNode s2.node_number actor }
  | Event.leader process value time =>
      let s1 :=
        if s.decide_value_write = false ∧ s.decide_value = none then
          { s with decide_value := some value, decide_value_write := true }
        else s
      let s2 :=
        if s1.decide_value ≠ some value then
          { s1 with
              node_info := updateInfo s1.node_info process (fmtLeaderUncheck process value time),
              concurrency := false }
        else if process ∈ s1.node_number then s1
        else
          { s1 with
              node_info := updateInfo s1.node_info process (fmtLeader process value time),
              time_sum := s1.time_sum + pyInt time,
              time_count := s1.time_count + 1 }
      { s2 with node_number := addNode s2.node_number process }

/-- The whole per-line state: the event core plus the INFO counter and the
two output streams (lists of written lines). -/
structure St where
  core : Core
  info_count : Nat
  info_out : List String
  debug_out : List String
deriving DecidableEq

/-- The `if`/`elif` part of the loop body (source lines 35–73): an INFO
line past the 8-line threshold is written to the info output and matched;
otherwise a DEBUG line is written to the debug output. -/
def stepLineAux (s : St) (line : String) : St :=
  if startsTag "[INFO]" line ∧ 8 ≤ s.info_count then
    match classify line with
    | some e =>
        { s with info_out := s.info_out ++ [line], core := stepEvent s.core e }
    | none => { s with info_out := s.info_out ++ [line] }
  else if startsTag "[DEBUG]" line then
    { s with debug_out := s.debug_out ++ [line] }
  else s

/-- One full loop iteration (source lines 33–76): the branch above followed
by the unconditional `if line.startswith('[INFO]'): info_count += 1`. -/
def stepLine (s : St) (line : String) : St :=
  let s1 := stepLineAux s line
  if startsTag "[INFO]" line then { s1 with info_count := s1.info_count + 1 }
  else s1

/-- The initial state (source lines 10–27); `decide_value = -1` is `none`. -/
def initCore : Core :=
  { decide_value := none, decide_value_write := false, concurrency := true,
    node_number := [], node_info := [], time_sum := 0, time_count := 0 }

/-- The initial per-line state. -/
def initSt : St :=
  { core := initCore, info_count := 0, info_out := [], debug_out := [] }

/-- Run the loop over the log lines. -/
def run (lines : List String) : St :=
  lines.foldl stepLine initSt

/-- Run the event core alone over a list of events. -/
def runEvents (evs : List Event) : Core :=
  evs.foldl stepEvent initCore

/-- The events the loop extracts from the lines, given the current value of
`info_count`: INFO lines increment the counter, and from the 9th INFO line
onward the classification result (if any) is emitted. -/
def eventsOf (k : Nat) : List String → List Event
  | [] => []
  | l :: ls =>
      if startsTag "[INFO]" l then
        (if 8 ≤ k then (classify l).toList else []) ++ eventsOf (k + 1) ls
      else eventsOf k ls

/-- The unhandled Python exception the summary writer can raise: the
division `time_sum / time_count` at source line 79 with `time_count == 0`. -/
inductive PyError where
  | zeroDivisionError
deriving DecidableEq

/-- A line of the summary file: either literal text, or the one line
`Average time for leader to decide: {time_sum / time_count}ms` whose
interpolated float is modelled as the exact rational quotient. -/
inductive SLine where
  | text (s : String)
  | avgTime (q : ℚ)
deriving DecidableEq

/-- The concurrency warning banner (source line 78, misspelling included). -/
def bannerStr : String := "**************[CONCURRENCY ERREOR]*************\n"

/-- The parameter section header (source line 80). -/
def paramHeaderStr : String := "**************[PARAM INFO]************\n"

/-- The node section header (source line 84). -/
def nodeHeaderStr : String := "**************[NODE INFO]*************\n"

/-- Source `for node_line in sorted(node_info): write(node_info[node_line])`: the
stored lines, iterated in ascending key order. -/
def nodeLines (m : List (Nat × String)) : List String :=
  (List.insertionSort (· ≤ ·) (m.map Prod.fst)).filterMap (lookupInfo m)

/-- The summary writer (source lines 77–86): the banner if the concurrency
flag is down, then the average-time line, then the parameter header and the
parameter file's lines verbatim, then the node header and the node lines in
ascending id order.  When `time_count = 0`, Python raises an unhandled
`ZeroDivisionError` at the average-time line, after the banner (if any) has
been written: the already written prefix is returned together with the
error. -/
def writeSummary (s : Core) (param : List String) :
    List SLine × Option PyError :=
  let banner : List SLine :=
    if s.concurrency = false then [SLine.text bannerStr] else []
  if s.time_count = 0 then (banner, some PyError.zeroDivisionError)
  else
    (banner ++ [SLine.avgTime ((s.time_sum : ℚ) / (s.time_count : ℚ))] ++
      [SLine.text paramHeaderStr] ++ param.map SLine.text ++
      [SLine.text nodeHeaderStr] ++ (nodeLines s.node_info).map SLine.text,
     none)

/-- The reference value of a run: the value of the first matched event
(the script latches `decide_value` on the first event and, as proved below,
never changes it afterwards). -/
def refOf : List Event → Option String
  | [] => none
  | e :: _ => some (valOf e)

/-- The first event of a list carrying a given id. -/
def firstWith (i : Nat) (evs : List Event) : Option Event :=
  evs.find? (fun e => idOf e == i)

/-- The contribution of an event to `time_sum` when it is consistent and
first-seen: `int(time)` for a leader event, nothing for a decide event. -/
def timeAdd : Event → Nat
  | Event.decide _ _ => 0
  | Event.leader _ _ t => pyInt t

/-- The contribution of an event to `time_count` when it is consistent and
first-seen. -/
def timeCnt : Event → Nat
  | Event.decide _ _ => 0
  | Event.leader _ _ _ => 1

/-- Specification-side timing accumulator, following the spec sentence
"running sum and count of time_ms for first-seen, consistent LeaderEvents
only": given the reference value and the set of ids already seen, sum and
count `time_ms` over exactly the leader events whose value equals the
reference and whose id has not appeared in any earlier event. -/
def specTime (ref : String) (seen : List Nat) : List Event → Nat × Nat
  | [] => (0, 0)
  | Event.decide a _ :: es => specTime ref (a :: seen) es
  | Event.leader p v t :: es =>
      let rest := specTime ref (p :: seen) es
      if v = ref ∧ p ∉ seen then (pyInt t + rest.1, rest.2 + 1) else rest

/-- Specification-side timing accumulator of a whole run: the reference
value is the first event's value, and no id has been seen initially. -/
def specTimeTop : List Event → Nat × Nat
  | [] => (0, 0)
  | e :: es => specTime (valOf e) [] (e :: es)

/-- Extract the rational of an average-time summary line. -/
def avgOf : SLine → Option Rat
  | SLine.avgTime q => some q
  | SLine.text _ => none

/-- A line that matches both patterns (both the decide phrase and the
leader-timing phrase occur in it), used to refute mutual exclusivity. -/
def c2line : String :=
  "[INFO] [akka://system/user/Actor1] DECIDE from p proposal [5] and Process [2] value [5] ballot x: 7ms"

/-- A log whose 9th INFO line is a Pattern-A decide event, so the run
matches an event but accumulates no Pattern-B timing sample. -/
def c1log : List String :=
  (List.replicate 8 "[INFO] startup") ++
    ["[INFO] [akka://system/user/Actor3] DECIDE from x proposal [5]"]

/-! ### Agreement of the fueled matcher with the reference matcher -/

/-- Fuel bookkeeping: the depth bound of a recursive call (one component of
the lexicographic measure strictly smaller, none larger) fits in one fuel
unit less. -/
theorem fuelStep {a b c d f : Nat} (h : (a + 1) * (b + 1) ≤ f + 1)
    (hc : c ≤ a) (hd : d ≤ b) (hlt : c < a ∨ d < b) :
    (c + 1) * (d + 1) ≤ f := by
  rcases hlt with hlt | hlt
  · have h1 : (c + 1) * (d + 1) ≤ a * (b + 1) := Nat.mul_le_mul hlt (by omega)
    have h2 : a * (b + 1) + (b + 1) = (a + 1) * (b + 1) := by ring
    omega
  · have h1 : (c + 1) * (d + 1) ≤ (a + 1) * b := Nat.mul_le_mul (by omega) hlt
    have h2 : (a + 1) * b + (a + 1) = (a + 1) * (b + 1) := by ring
    omega

/-- Fuel bookkeeping: recursive calls that consume a character and drop or
replace the head token. -/
theorem fuelBoth {t : Tok} {ts : List Tok} {c : Char} {cs : List Char} {f : Nat}
    (h : ((c :: cs).length + 1) * ((t :: ts).length + 1) ≤ f + 1) :
    (cs.length + 1) * (ts.length + 1) ≤ f := by
  simp only [List.length_cons] at h
  exact fuelStep h (Nat.le_succ _) (Nat.le_succ _) (Or.inl (Nat.lt_succ_self _))

/-- Fuel bookkeeping: recursive calls that consume a character and replace
the head token by another one. -/
theorem fuelCs {t t2 : Tok} {ts : List Tok} {c : Char} {cs : List Char} {f : Nat}
    (h : ((c :: cs).length + 1) * ((t :: ts).length + 1) ≤ f + 1) :
    (cs.length + 1) * ((t2 :: ts).length + 1) ≤ f := by
  simp only [List.length_cons] at h
  simp only [List.length_cons]
  exact fuelStep h (Nat.le_succ _) (le_refl _) (Or.inl (Nat.lt_succ_self _))

/-- Fuel bookkeeping: recursive calls that keep the subject and drop the
head token. -/
theorem fuelTs {t : Tok} {ts : List Tok} {cs : List Char} {f : Nat}
    (h : (cs.length + 1) * ((t :: ts).length + 1) ≤ f + 1) :
    (cs.length + 1) * (ts.length + 1) ≤ f := by
  simp only [List.length_cons] at h
  exact fuelStep h (le_refl _) (Nat.le_succ _) (Or.inr (Nat.lt_succ_self _))

/-- With fuel at least `(cs.length + 1) * (ts.length + 1)`, the fueled
matcher agrees with the reference matcher: the fuel bound is never hit. -/
theorem mtchF_eq_mtch :
    ∀ (f : Nat) (ts : List Tok) (cs : List Char),
      (cs.length + 1) * (ts.length + 1) ≤ f →
      mtchF f ts cs = mtch ts cs := by
  intro f
  induction f with
  | zero =>
      intro ts cs h
      have hpos : 0 < (cs.length + 1) * (ts.length + 1) :=
        Nat.mul_pos (Nat.succ_pos _) (Nat.succ_pos _)
      omega
  | succ f ih =>
      intro ts cs h
      rcases ts with _ | ⟨t, ts⟩
      · simp [mtchF, mtch]
      · cases t with
        | lit c =>
            rcases cs with _ | ⟨c2, cs⟩
            · simp [mtchF, mtch]
            · simp [mtchF, mtch, ih ts cs (fuelBoth h)]
        | grp =>
            rcases cs with _ | ⟨c2, cs⟩
            · simp [mtchF, mtch]
            · simp [mtchF, mtch, ih (Tok.grpCont [c2] :: ts) cs (fuelCs h)]
        | grpCont acc =>
            rcases cs with _ | ⟨c2, cs⟩
            · simp [mtchF, mtch, ih ts [] (fuelTs h)]
            · simp [mtchF, mtch,
                ih (Tok.grpCont (acc ++ [c2]) :: ts) cs (fuelCs h),
                ih ts (c2 :: cs) (fuelTs h)]
        | dig =>
            rcases cs with _ | ⟨c2, cs⟩
            · simp [mtchF, mtch]
            · simp [mtchF, mtch, ih (Tok.digCont :: ts) cs (fuelCs h)]
        | digCont =>
            rcases cs with _ | ⟨c2, cs⟩
            · simp [mtchF, mtch, ih ts [] (fuelTs h)]
            · simp [mtchF, mtch, ih (Tok.digCont :: ts) cs (fuelCs h),
                ih ts (c2 :: cs) (fuelTs h)]
        | star =>
            rcases cs with _ | ⟨c2, cs⟩
            · simp [mtchF, mtch, ih ts [] (fuelTs h)]
            · simp [mtchF, mtch, ih (Tok.star :: ts) cs (fuelCs h),
                ih ts (c2 :: cs) (fuelTs h)]

/-- With fuel at least `fuelFor ts cs`, the fueled search agrees with the
reference search at every start position. -/
theorem srchF_eq_srch (f : Nat) (ts : List Tok) :
    ∀ cs : List Char, (cs.length + 1) * (ts.length + 1) ≤ f →
      srchF f ts cs = srch ts cs := by
  intro cs
  induction cs with
  | nil =>
      intro h
      rw [srch]
      simp only [srchF]
      rw [mtchF_eq_mtch f ts [] h]
      cases mtch ts [] <;> simp
  | cons c cs ihc =>
      intro h
      have hm : (cs.length + 1) * (ts.length + 1) ≤ f := by
        have step : (cs.length + 1) * (ts.length + 1) ≤
            (cs.length + 1 + 1) * (ts.length + 1) :=
          Nat.mul_le_mul (Nat.le_succ _) (le_refl _)
        simp only [List.length_cons] at h
        omega
      rw [srch]
      simp only [srchF]
      rw [mtchF_eq_mtch f ts (c :: cs) (by simpa using h)]
      cases mtch ts (c :: cs) <;> simp [ihc hm]

/-! ### Helper lemmas: the node set and the node dict -/

/-- Membership in the node set after `add`. -/
theorem mem_addNode {l : List Nat} {a i : Nat} :
    i ∈ addNode l a ↔ i ∈ l ∨ i = a := by
  unfold addNode
  split
  · rename_i ha
    constructor
    · exact fun h => Or.inl h
    · rintro (h | rfl)
      · exact h
      · exact ha
  · simp [List.mem_append]

/-- Adding a member leaves the node set unchanged. -/
theorem addNode_mem {l : List Nat} {a : Nat} (h : a ∈ l) : addNode l a = l := by
  unfold addNode
  exact if_pos h

/-- Finding by key ignores the removal of bindings of a different key. -/
theorem find?_filter_ne (m : List (Nat × String)) (k i : Nat) (h : i ≠ k) :
    List.find? (fun p => p.1 == i) (m.filter (fun p => ¬ p.1 = k)) =
      List.find? (fun p => p.1 == i) m := by
  induction m with
  | nil => rfl
  | cons p m ihm =>
      by_cases hk : p.1 = k
      · have hpi : (p.1 == i) = false :=
          beq_eq_false_iff_ne.mpr (by rw [hk]; exact fun hh => h hh.symm)
        rw [List.filter_cons, if_neg (by simp [hk])]
        simp only [List.find?_cons, hpi]
        exact ihm
      · rw [List.filter_cons, if_pos (by simp [hk])]
        simp only [List.find?_cons]
        cases hpi : (p.1 == i) <;> simp only [hpi] <;>
          first
          | rfl
          | exact ihm

/-- Looking up the key just written returns the written value. -/
theorem lookupInfo_updateInfo_self (m : List (Nat × String)) (k : Nat) (v : String) :
    lookupInfo (updateInfo m k v) k = some v := by
  unfold lookupInfo updateInfo
  simp only [List.find?_cons, beq_self_eq_true]
  rfl

/-- Looking up another key is unaffected by a write. -/
theorem lookupInfo_updateInfo_ne {m : List (Nat × String)} {k : Nat} {v : String}
    {i : Nat} (h : i ≠ k) : lookupInfo (updateInfo m k v) i = lookupInfo m i := by
  have hki : (k == i) = false := by
    simp only [beq_eq_false_iff_ne]
    exact fun hh => h hh.symm
  unfold lookupInfo updateInfo
  simp only [List.find?_cons, hki]
  rw [find?_filter_ne m k i h]

/-- A successful lookup means the key is among the stored keys. -/
theorem mem_keys_of_lookupInfo {m : List (Nat × String)} {k : Nat} {s : String}
    (h : lookupInfo m k = some s) : k ∈ m.map Prod.fst := by
  unfold lookupInfo at h
  cases hf : m.find? (fun p => p.1 == k) with
  | none => rw [hf] at h; exact absurd h (by simp)
  | some p =>
      have hmem : p ∈ m := List.mem_of_find?_eq_some hf
      have hp := List.find?_some hf
      have hpk : p.1 = k := by simpa using hp
      exact hpk ▸ List.mem_map_of_mem Prod.fst hmem

/-- A stored line is written in the node section of the summary. -/
theorem mem_nodeLines {m : List (Nat × String)} {k : Nat} {s : String}
    (h : lookupInfo m k = some s) : s ∈ nodeLines m := by
  have hk : k ∈ m.map Prod.fst := mem_keys_of_lookupInfo h
  have hks : k ∈ List.insertionSort (· ≤ ·) (m.map Prod.fst) :=
    (List.perm_insertionSort (· ≤ ·) (m.map Prod.fst)).mem_iff.mpr hk
  exact List.mem_filterMap.mpr ⟨k, hks, h⟩

/-! ### Helper lemmas: one step of the event core -/

/-- The node set after a step: the event's id is added, nothing else. -/
theorem stepEvent_node_number (s : Core) (e : Event) :
    (stepEvent s e).node_number = addNode s.node_number (idOf e) := by
  cases e <;> simp only [stepEvent, idOf] <;> split <;> split <;>
    first
    | rfl
    | (split <;> rfl)

/-- The reference value after a step: latched by the first event, then
unchanged. -/
theorem stepEvent_decide_value (s : Core) (e : Event) :
    (stepEvent s e).decide_value =
      if s.decide_value_write = false ∧ s.decide_value = none then
        some (valOf e)
      else s.decide_value := by
  cases e <;> simp only [stepEvent, valOf] <;> split <;> split <;>
    first
    | rfl
    | (split <;> rfl)

/-- A latched reference value survives a step. -/
theorem stepEvent_dv_some {s : Core} {r : String} (e : Event)
    (h : s.decide_value = some r) : (stepEvent s e).decide_value = some r := by
  rw [stepEvent_decide_value, if_neg (by simp [h])]
  exact h

/-- Step of an inconsistent event (value differs from the latched
reference): the id's entry is overwritten with the uncheck line and the
concurrency flag is cleared. -/
theorem stepEvent_inconsistent {s : Core} {r : String} {e : Event}
    (h : s.decide_value = some r) (hv : valOf e ≠ r) :
    stepEvent s e =
      { s with
          node_info := updateInfo s.node_info (idOf e) (uncheckFmt e),
          concurrency := false,
          node_number := addNode s.node_number (idOf e) } := by
  have hcond : ¬ (s.decide_value_write = false ∧ s.decide_value = none) := by
    simp [h]
  cases e with
  | decide a v =>
      have hne : s.decide_value ≠ some v := by
        rw [h]
        intro hh
        exact hv (by simpa [valOf] using (Option.some.inj hh).symm)
      simp only [stepEvent, idOf, uncheckFmt]
      rw [if_neg hcond, if_pos hne]
  | leader p v t =>
      have hne : s.decide_value ≠ some v := by
        rw [h]
        intro hh
        exact hv (by simpa [valOf] using (Option.some.inj hh).symm)
      simp only [stepEvent, idOf, uncheckFmt]
      rw [if_neg hcond, if_pos hne]

/-- Step of a consistent event whose id was already seen: no change except
the (idempotent) node-set add, i.e. no change at all. -/
theorem stepEvent_consistent_seen {s : Core} {r : String} {e : Event}
    (h : s.decide_value = some r) (hv : valOf e = r)
    (hm : idOf e ∈ s.node_number) : stepEvent s e = s := by
  have hcond : ¬ (s.decide_value_write = false ∧ s.decide_value = none) := by
    simp [h]
  cases e with
  | decide a v =>
      have hne : ¬ s.decide_value ≠ some v := by
        simp [h, ← hv, valOf]
      simp only [stepEvent]
      rw [if_neg hcond, if_neg hne, if_pos (by simpa [idOf] using hm),
        addNode_mem (by simpa [idOf] using hm)]
  | leader p v t =>
      have hne : ¬ s.decide_value ≠ some v := by
        simp [h, ← hv, valOf]
      simp only [stepEvent]
      rw [if_neg hcond, if_neg hne, if_pos (by simpa [idOf] using hm),
        addNode_mem (by simpa [idOf] using hm)]

/-- Step of a consistent, first-seen event: its formatted line is stored,
its id is added to the node set, and (for a leader event) its time is
accumulated. -/
theorem stepEvent_consistent_new {s : Core} {r : String} {e : Event}
    (h : s.decide_value = some r) (hv : valOf e = r)
    (hm : idOf e ∉ s.node_number) :
    stepEvent s e =
      { s with
          node_info := updateInfo s.node_info (idOf e) (consFmt e),
          node_number := addNode s.node_number (idOf e),
          time_sum := s.time_sum + timeAdd e,
          time_count := s.time_count + timeCnt e } := by
  have hcond : ¬ (s.decide_value_write = false ∧ s.decide_value = none) := by
    simp [h]
  cases e with
  | decide a v =>
      have hne : ¬ s.decide_value ≠ some v := by
        simp [h, ← hv, valOf]
      simp only [stepEvent, idOf, consFmt, timeAdd, timeCnt]
      rw [if_neg hcond, if_neg hne, if_neg (by simpa [idOf] using hm)]
      simp
  | leader p v t =>
      have hne : ¬ s.decide_value ≠ some v := by
        simp [h, ← hv, valOf]
      simp only [stepEvent, idOf, consFmt, timeAdd, timeCnt]
      rw [if_neg hcond, if_neg hne, if_neg (by simpa [idOf] using hm)]

/-- The very first processed event latches the reference value to its own
value, is consistent with it, and is first-seen. -/
theorem stepEvent_init (e : Event) :
    stepEvent initCore e =
      { decide_value := some (valOf e), decide_value_write := true,
        concurrency := true, node_number := [idOf e],
        node_info := [(idOf e, consFmt e)],
        time_sum := timeAdd e, time_count := timeCnt e } := by
  cases e <;>
    simp [stepEvent, initCore, updateInfo, addNode, consFmt, timeAdd,
      timeCnt, valOf, idOf]

/-- A cleared concurrency flag stays cleared. -/
theorem stepEvent_conc_false {s : Core} (e : Event)
    (h : s.concurrency = false) : (stepEvent s e).concurrency = false := by
  cases e <;> simp only [stepEvent] <;> split <;> split <;>
    first
    | (split <;> simp [h])
    | simp [h]

/-- A consistent event does not touch the concurrency flag. -/
theorem stepEvent_conc_consistent {s : Core} {r : String} {e : Event}
    (h : s.decide_value = some r) (hv : valOf e = r) :
    (stepEvent s e).concurrency = s.concurrency := by
  by_cases hm : idOf e ∈ s.node_number
  · rw [stepEvent_consistent_seen h hv hm]
  · rw [stepEvent_consistent_new h hv hm]

/-- The dict after a step: unchanged, or written at the event's id. -/
theorem stepEvent_node_info (s : Core) (e : Event) :
    (stepEvent s e).node_info = s.node_info ∨
      ∃ str, (stepEvent s e).node_info = updateInfo s.node_info (idOf e) str := by
  cases e <;> simp only [stepEvent, idOf] <;> split <;> split <;>
    first
    | exact Or.inr ⟨_, rfl⟩
    | (split <;>
        first
        | exact Or.inl rfl
        | exact Or.inr ⟨_, rfl⟩)

/-! ### Helper lemmas: folds of the event core -/

/-- A latched reference value survives any sequence of events. -/
theorem foldl_dv_some (evs : List Event) :
    ∀ (s : Core) (r : String), s.decide_value = some r →
      (evs.foldl stepEvent s).decide_value = some r := by
  induction evs with
  | nil => intro s r h; simpa using h
  | cons e evs ih =>
      intro s r h
      simp only [List.foldl_cons]
      exact ih _ _ (stepEvent_dv_some e h)

/-- The reference value of a run is the first event's value. -/
theorem runEvents_decide_value (evs : List Event) :
    (runEvents evs).decide_value = refOf evs := by
  cases evs with
  | nil => rfl
  | cons e evs =>
      unfold runEvents
      simp only [List.foldl_cons, refOf]
      exact foldl_dv_some evs _ _ (by rw [stepEvent_init])

/-- A cleared concurrency flag survives any sequence of events. -/
theorem foldl_conc_false (evs : List Event) :
    ∀ s : Core, s.concurrency = false →
      (evs.foldl stepEvent s).concurrency = false := by
  induction evs with
  | nil => intro s h; simpa using h
  | cons e evs ih =>
      intro s h
      simp only [List.foldl_cons]
      exact ih _ (stepEvent_conc_false e h)

/-- A sequence of events all consistent with the latched reference leaves
the concurrency flag untouched. -/
theorem foldl_conc_consistent (evs : List Event) :
    ∀ (s : Core) (r : String), s.decide_value = some r →
      (∀ e ∈ evs, valOf e = r) →
      (evs.foldl stepEvent s).concurrency = s.concurrency := by
  induction evs with
  | nil => intro s r _ _; rfl
  | cons e evs ih =>
      intro s r h hall
      simp only [List.foldl_cons]
      rw [ih _ r (stepEvent_dv_some e h)
        (fun e2 he2 => hall e2 (List.mem_cons_of_mem _ he2))]
      exact stepEvent_conc_consistent h (hall e (List.mem_cons_self _ _))

/-- A step of an event with another id does not change the stored line of
id `i`. -/
theorem stepEvent_lookup_ne {s : Core} {e : Event} {i : Nat}
    (hne : i ≠ idOf e) :
    lookupInfo (stepEvent s e).node_info i = lookupInfo s.node_info i := by
  rcases stepEvent_node_info s e with h | ⟨str, h⟩
  · rw [h]
  · rw [h, lookupInfo_updateInfo_ne hne]

/-- The node set only grows. -/
theorem stepEvent_mem_nn {s : Core} {e : Event} {i : Nat}
    (h : i ∈ s.node_number) : i ∈ (stepEvent s e).node_number := by
  rw [stepEvent_node_number]
  exact mem_addNode.mpr (Or.inl h)

/-- Once id `i` is in the node set, a sequence of events that are all
consistent for id `i` leaves the stored line of `i` unchanged. -/
theorem foldl_lookup_seen (evs : List Event) :
    ∀ (s : Core) (r : String) (i : Nat), s.decide_value = some r →
      (∀ e ∈ evs, idOf e = i → valOf e = r) → i ∈ s.node_number →
      lookupInfo (evs.foldl stepEvent s).node_info i =
        lookupInfo s.node_info i := by
  induction evs with
  | nil => intro s r i _ _ _; rfl
  | cons e evs ih =>
      intro s r i h hall hm
      simp only [List.foldl_cons]
      by_cases hid : idOf e = i
      · have hv : valOf e = r := hall e (List.mem_cons_self _ _) hid
        rw [stepEvent_consistent_seen h hv (by rwa [hid])]
        exact ih s r i h
          (fun e2 he2 => hall e2 (List.mem_cons_of_mem _ he2)) hm
      · rw [ih _ r i (stepEvent_dv_some e h)
          (fun e2 he2 => hall e2 (List.mem_cons_of_mem _ he2))
          (stepEvent_mem_nn hm)]
        exact stepEvent_lookup_ne (fun hh => hid hh.symm)

/-- While id `i` is unseen and every event of id `i` is consistent, the
first event of id `i` determines the stored line of `i`. -/
theorem foldl_lookup_first (evs : List Event) :
    ∀ (s : Core) (r : String) (i : Nat) (e0 : Event),
      s.decide_value = some r →
      (∀ e ∈ evs, idOf e = i → valOf e = r) → i ∉ s.node_number →
      firstWith i evs = some e0 →
      lookupInfo (evs.foldl stepEvent s).node_info i = some (consFmt e0) := by
  induction evs with
  | nil =>
      intro s r i e0 _ _ _ hf
      exact absurd hf (by simp [firstWith])
  | cons e evs ih =>
      intro s r i e0 h hall hm hf
      simp only [List.foldl_cons]
      by_cases hid : idOf e = i
      · have hv : valOf e = r := hall e (List.mem_cons_self _ _) hid
        have he0 : e = e0 := by
          unfold firstWith at hf
          rw [List.find?_cons] at hf
          simp only [hid, beq_self_eq_true] at hf
          exact Option.some.inj hf
        rw [stepEvent_consistent_new h hv (by rwa [hid])]
        rw [foldl_lookup_seen evs _ r i (by simpa using h)
          (fun e2 he2 => hall e2 (List.mem_cons_of_mem _ he2))
          (by
            simp only [stepEvent_node_number]
            exact mem_addNode.mpr (Or.inr hid.symm))]
        simp only [hid]
        rw [lookupInfo_updateInfo_self, he0]
      · have hf2 : firstWith i evs = some e0 := by
          unfold firstWith at hf ⊢
          rw [List.find?_cons] at hf
          have : (idOf e == i) = false := beq_eq_false_iff_ne.mpr hid
          rwa [this] at hf
        have hm2 : i ∉ (stepEvent s e).node_number := by
          rw [stepEvent_node_number]
          intro hmem
          rcases mem_addNode.mp hmem with hmem | hmem
          · exact hm hmem
          · exact hid hmem.symm
        rw [ih _ r i e0 (stepEvent_dv_some e h)
          (fun e2 he2 => hall e2 (List.mem_cons_of_mem _ he2)) hm2 hf2]

/-- Growing the seen set by an id already tracked by the node set keeps the
two in sync. -/
theorem inv_seen {nn seen : List Nat} {a : Nat}
    (hs : ∀ i, i ∈ nn ↔ i ∈ seen) (ha : a ∈ nn) :
    ∀ i, i ∈ nn ↔ i ∈ a :: seen := by
  intro i
  rw [List.mem_cons]
  constructor
  · exact fun h => Or.inr ((hs i).mp h)
  · rintro (rfl | h)
    · exact ha
    · exact (hs i).mpr h

/-- Adding the same id to the node set and the seen set keeps them in
sync. -/
theorem inv_addNode {nn seen : List Nat} {a : Nat}
    (hs : ∀ i, i ∈ nn ↔ i ∈ seen) :
    ∀ i, i ∈ addNode nn a ↔ i ∈ a :: seen := by
  intro i
  rw [mem_addNode, List.mem_cons, hs i]
  tauto

/-- Refinement of the timing accumulator: with the reference latched and
the node set in sync with the spec-side seen set, the fold accumulates
exactly the spec-side sum and count of first-seen consistent leader
events. -/
theorem foldl_time (evs : List Event) :
    ∀ (s : Core) (r : String) (seen : List Nat),
      s.decide_value = some r →
      (∀ i, i ∈ s.node_number ↔ i ∈ seen) →
      (evs.foldl stepEvent s).time_sum = s.time_sum + (specTime r seen evs).1 ∧
      (evs.foldl stepEvent s).time_count =
        s.time_count + (specTime r seen evs).2 := by
  induction evs with
  | nil =>
      intro s r seen _ _
      simp [specTime]
  | cons e evs ih =>
      intro s r seen h hs
      simp only [List.foldl_cons]
      cases e with
      | decide a v =>
          simp only [specTime]
          by_cases hv : v = r
          · by_cases hm : a ∈ s.node_number
            · rw [stepEvent_consistent_seen h
                (show valOf (Event.decide a v) = r from hv)
                (by simpa [idOf] using hm)]
              exact ih s r (a :: seen) h (inv_seen hs hm)
            · rw [stepEvent_consistent_new h
                (show valOf (Event.decide a v) = r from hv)
                (by simpa [idOf] using hm)]
              refine ⟨?_, ?_⟩
              · rw [(ih _ r (a :: seen) (by simpa using h)
                  (by simpa [idOf] using inv_addNode hs)).1]
                simp [timeAdd]
              · rw [(ih _ r (a :: seen) (by simpa using h)
                  (by simpa [idOf] using inv_addNode hs)).2]
                simp [timeCnt]
          · rw [stepEvent_inconsistent h
              (show valOf (Event.decide a v) ≠ r from hv)]
            refine ⟨?_, ?_⟩
            · rw [(ih _ r (a :: seen) (by simpa using h)
                (by simpa [idOf] using inv_addNode hs)).1]
            · rw [(ih _ r (a :: seen) (by simpa using h)
                (by simpa [idOf] using inv_addNode hs)).2]
      | leader p v t =>
          simp only [specTime]
          by_cases hc : v = r ∧ p ∉ seen
          · obtain ⟨hv, hp⟩ := hc
            have hm : p ∉ s.node_number := fun hmem => hp ((hs p).mp hmem)
            rw [stepEvent_consistent_new h
              (show valOf (Event.leader p v t) = r from hv)
              (by simpa [idOf] using hm)]
            rw [if_pos ⟨hv, hp⟩]
            refine ⟨?_, ?_⟩
            · rw [(ih _ r (p :: seen) (by simpa using h)
                (by simpa [idOf] using inv_addNode hs)).1]
              simp only [timeAdd]
              omega
            · rw [(ih _ r (p :: seen) (by simpa using h)
                (by simpa [idOf] using inv_addNode hs)).2]
              simp only [timeCnt]
              omega
          · rw [if_neg hc]
            by_cases hv : v = r
            · have hp : p ∈ seen := by
                by_contra hp
                exact hc ⟨hv, hp⟩
              have hm : p ∈ s.node_number := (hs p).mpr hp
              rw [stepEvent_consistent_seen h
                (show valOf (Event.leader p v t) = r from hv)
                (by simpa [idOf] using hm)]
              exact ih s r (p :: seen) h (inv_seen hs hm)
            · rw [stepEvent_inconsistent h
                (show valOf (Event.leader p v t) ≠ r from hv)]
              refine ⟨?_, ?_⟩
              · rw [(ih _ r (p :: seen) (by simpa using h)
                  (by simpa [idOf] using inv_addNode hs)).1]
              · rw [(ih _ r (p :: seen) (by simpa using h)
                  (by simpa [idOf] using inv_addNode hs)).2]


/-- The timing accumulator of a whole run equals the spec-side sum and
count over first-seen, consistent leader events. -/
theorem runEvents_time (evs : List Event) :
    (runEvents evs).time_sum = (specTimeTop evs).1 ∧
    (runEvents evs).time_count = (specTimeTop evs).2 := by
  cases evs with
  | nil => exact ⟨rfl, rfl⟩
  | cons e evs =>
      unfold runEvents
      simp only [List.foldl_cons, specTimeTop]
      rw [stepEvent_init]
      cases e with
      | decide a v =>
          simp only [specTime, valOf, idOf]
          obtain ⟨h1, h2⟩ := foldl_time evs
            { decide_value := some v, decide_value_write := true,
              concurrency := true, node_number := [a],
              node_info := [(a, consFmt (Event.decide a v))],
              time_sum := timeAdd (Event.decide a v),
              time_count := timeCnt (Event.decide a v) }
            v [a] rfl (fun i => Iff.rfl)
          constructor
          · rw [h1]
            try dsimp only [timeAdd]
            try omega
          · rw [h2]
            try dsimp only [timeCnt]
            try omega
      | leader p v t =>
          simp only [specTime, valOf, idOf]
          rw [if_pos ⟨trivial, List.not_mem_nil p⟩]
          obtain ⟨h1, h2⟩ := foldl_time evs
            { decide_value := some v, decide_value_write := true,
              concurrency := true, node_number := [p],
              node_info := [(p, consFmt (Event.leader p v t))],
              time_sum := timeAdd (Event.leader p v t),
              time_count := timeCnt (Event.leader p v t) }
            v [p] rfl (fun i => Iff.rfl)
          constructor
          · rw [h1]
            try dsimp only [timeAdd]
            try omega
          · rw [h2]
            try dsimp only [timeCnt]
            try omega

/-! ### Helper lemmas: the per-line loop -/

/-- A line tagged `[INFO]` is not tagged `[DEBUG]`. -/
theorem info_not_debug {l : String} (h : startsTag "[INFO]" l = true) :
    startsTag "[DEBUG]" l = false := by
  unfold startsTag at h ⊢
  have hi : "[INFO]".data = ['[', 'I', 'N', 'F', 'O', ']'] := rfl
  have hd : "[DEBUG]".data = ['[', 'D', 'E', 'B', 'U', 'G', ']'] := rfl
  rw [hi] at h
  rw [hd]
  rcases hl : l.data with _ | ⟨c0, _ | ⟨c1, rest⟩⟩ <;> rw [hl] at h <;>
    simp_all [List.isPrefixOf]
  exact fun _ hD => absurd (hD.trans h.2.1.symm) (by decide)

/-- Loop body on an INFO line past the threshold that matches a pattern. -/
theorem stepLine_info_event {s : St} {line : String} {e : Event}
    (hinfo : startsTag "[INFO]" line = true) (hc : 8 ≤ s.info_count)
    (he : classify line = some e) :
    stepLine s line =
      { s with info_out := s.info_out ++ [line],
               core := stepEvent s.core e,
               info_count := s.info_count + 1 } := by
  unfold stepLine stepLineAux
  simp [hinfo, hc, he]

/-- Loop body on an INFO line past the threshold that matches neither
pattern. -/
theorem stepLine_info_noevent {s : St} {line : String}
    (hinfo : startsTag "[INFO]" line = true) (hc : 8 ≤ s.info_count)
    (he : classify line = none) :
    stepLine s line =
      { s with info_out := s.info_out ++ [line],
               info_count := s.info_count + 1 } := by
  unfold stepLine stepLineAux
  simp [hinfo, hc, he]

/-- Loop body on one of the first 8 INFO lines: only the counter moves. -/
theorem stepLine_info_early {s : St} {line : String}
    (hinfo : startsTag "[INFO]" line = true) (hc : ¬ 8 ≤ s.info_count) :
    stepLine s line = { s with info_count := s.info_count + 1 } := by
  unfold stepLine stepLineAux
  simp [hinfo, hc, info_not_debug hinfo]

/-- Loop body on a DEBUG line. -/
theorem stepLine_debug {s : St} {line : String}
    (hinfo : startsTag "[INFO]" line = false)
    (hdbg : startsTag "[DEBUG]" line = true) :
    stepLine s line = { s with debug_out := s.debug_out ++ [line] } := by
  unfold stepLine stepLineAux
  simp [hinfo, hdbg]

/-- Loop body on an untagged line: no effect at all. -/
theorem stepLine_other {s : St} {line : String}
    (hinfo : startsTag "[INFO]" line = false)
    (hdbg : startsTag "[DEBUG]" line = false) :
    stepLine s line = s := by
  unfold stepLine stepLineAux
  simp [hinfo, hdbg]

/-- Correspondence: folding the loop body over the lines acts on the event
core exactly as folding the event step over the extracted events. -/
theorem foldl_stepLine_core (lines : List String) :
    ∀ s : St, (lines.foldl stepLine s).core =
      (eventsOf s.info_count lines).foldl stepEvent s.core := by
  induction lines with
  | nil => intro s; rfl
  | cons l ls ih =>
      intro s
      simp only [List.foldl_cons]
      by_cases hinfo : startsTag "[INFO]" l = true
      · by_cases hc : 8 ≤ s.info_count
        · cases he : classify l with
          | some e =>
              rw [stepLine_info_event hinfo hc he, ih, eventsOf,
                if_pos hinfo, if_pos hc, he]
              simp
          | none =>
              rw [stepLine_info_noevent hinfo hc he, ih, eventsOf,
                if_pos hinfo, if_pos hc, he]
              simp
        · rw [stepLine_info_early hinfo hc, ih, eventsOf,
            if_pos hinfo, if_neg hc]
          simp
      · have hinfo2 : startsTag "[INFO]" l = false := eq_false_of_ne_true hinfo
        by_cases hdbg : startsTag "[DEBUG]" l = true
        · rw [stepLine_debug hinfo2 hdbg, ih, eventsOf, if_neg (by simp [hinfo2])]
        · rw [stepLine_other hinfo2 (eq_false_of_ne_true hdbg), ih,
            eventsOf, if_neg (by simp [hinfo2])]

/-- The event core of a whole run is the event fold over the extracted
events. -/
theorem run_core (lines : List String) :
    (run lines).core = runEvents (eventsOf 0 lines) := by
  unfold run runEvents
  exact foldl_stepLine_core lines initSt

/-- The info output of the loop: the INFO lines, minus however many of the
8 skipped ones are still to be skipped. -/
theorem foldl_stepLine_info (lines : List String) :
    ∀ s : St, (lines.foldl stepLine s).info_out =
      s.info_out ++
        ((lines.filter (fun l => startsTag "[INFO]" l)).drop
          (8 - s.info_count)) := by
  induction lines with
  | nil => intro s; simp
  | cons l ls ih =>
      intro s
      simp only [List.foldl_cons, List.filter_cons]
      by_cases hinfo : startsTag "[INFO]" l = true
      · rw [if_pos (by simp [hinfo])]
        by_cases hc : 8 ≤ s.info_count
        · have hd0 : 8 - s.info_count = 0 := by omega
          have hd1 : 8 - (s.info_count + 1) = 0 := by omega
          cases he : classify l with
          | some e =>
              rw [stepLine_info_event hinfo hc he, ih]
              simp [hd0, hd1]
          | none =>
              rw [stepLine_info_noevent hinfo hc he, ih]
              simp [hd0, hd1]
        · rw [stepLine_info_early hinfo hc, ih]
          have h8 : 8 - s.info_count = (8 - (s.info_count + 1)) + 1 := by
            omega
          rw [h8]
          simp
      · have hinfo2 : startsTag "[INFO]" l = false := eq_false_of_ne_true hinfo
        rw [if_neg (by simp [hinfo2])]
        by_cases hdbg : startsTag "[DEBUG]" l = true
        · rw [stepLine_debug hinfo2 hdbg, ih]
        · rw [stepLine_other hinfo2 (eq_false_of_ne_true hdbg), ih]

/-- The debug output of the loop: exactly the DEBUG lines are appended. -/
theorem foldl_stepLine_debug (lines : List String) :
    ∀ s : St, (lines.foldl stepLine s).debug_out =
      s.debug_out ++ lines.filter (fun l => startsTag "[DEBUG]" l) := by
  induction lines with
  | nil => intro s; simp
  | cons l ls ih =>
      intro s
      simp only [List.foldl_cons, List.filter_cons]
      by_cases hinfo : startsTag "[INFO]" l = true
      · have hnd : startsTag "[DEBUG]" l = false := info_not_debug hinfo
        rw [if_neg (by simp [hnd])]
        by_cases hc : 8 ≤ s.info_count
        · cases he : classify l with
          | some e => rw [stepLine_info_event hinfo hc he, ih]
          | none => rw [stepLine_info_noevent hinfo hc he, ih]
        · rw [stepLine_info_early hinfo hc, ih]
      · have hinfo2 : startsTag "[INFO]" l = false := eq_false_of_ne_true hinfo
        by_cases hdbg : startsTag "[DEBUG]" l = true
        · rw [if_pos (by simp [hdbg]), stepLine_debug hinfo2 hdbg, ih]
          simp
        · rw [if_neg (by simp [eq_false_of_ne_true hdbg]),
            stepLine_other hinfo2 (eq_false_of_ne_true hdbg), ih]

/-! ### The claims -/

/-- C1: the claim says the program surfaces a reported NoTimingSamples
error instead of an unhandled division by zero when no first-seen
consistent Pattern-B event occurred.  The code has no such error path: on
a log whose only matched event is a Pattern-A decide event (so the average
is computed over zero qualifying events), the summary writer reaches
`time_sum / time_count` with `time_count = 0` and raises an unhandled
`ZeroDivisionError` — the run crashes after writing at most the banner. -/
theorem C1_zero_division :
    (writeSummary (run c1log).core []).2 = some PyError.zeroDivisionError ∧
    (run c1log).core.decide_value = some "5" ∧
    (run c1log).core.time_count = 0 := by
  refine ⟨by decide, by decide, by decide⟩

/-- C2 is false as stated: the two patterns are not mutually exclusive.
The concrete line `c2line` (containing both a DECIDE/proposal phrase and a
Process/value/ballot/ms phrase) matches Pattern A and Pattern B at once. -/
theorem C2_counterexample :
    matchesPat pattern1 c2line = true ∧ matchesPat pattern2 c2line = true := by
  refine ⟨by decide, by decide⟩

/-- C2 (amended): the patterns can overlap on one line, but the dispatch
tries Pattern A first, so any line that Pattern A matches is processed as
a Pattern-A decide event only; at most one event is produced per line. -/
theorem C2_pattern_priority (line : String) (a : Nat) (v : String)
    (h : parse1 line = some (a, v)) :
    classify line = some (Event.decide a v) := by
  unfold classify
  rw [h]

/-- Witness for C2_pattern_priority at the dual-matching line. -/
theorem C2_pattern_priority_witness :
    parse1 c2line = some (1, "5") ∧
    classify c2line = some (Event.decide 1 "5") :=
  ⟨by decide, C2_pattern_priority c2line 1 "5" (by decide)⟩

/-- An inconsistent event overwrites its id's stored entry with the
uncheck line and clears the concurrency flag. -/
theorem uncheck_after (pre : List Event) (e : Event) (r : String)
    (h1 : refOf (pre ++ [e]) = some r) (h2 : valOf e ≠ r) :
    lookupInfo (runEvents (pre ++ [e])).node_info (idOf e) =
      some (uncheckFmt e) ∧
    (runEvents (pre ++ [e])).concurrency = false := by
  cases pre with
  | nil =>
      have : valOf e = r := by simpa [refOf] using h1
      exact absurd this h2
  | cons e1 pre =>
      have hval : valOf e1 = r := by simpa [refOf] using h1
      have hdv : (runEvents (e1 :: pre)).decide_value = some r := by
        rw [runEvents_decide_value, refOf, hval]
      have hstep : runEvents ((e1 :: pre) ++ [e]) =
          stepEvent (runEvents (e1 :: pre)) e := by
        unfold runEvents
        rw [List.foldl_append]
        simp only [List.foldl_cons, List.foldl_nil]
      rw [hstep, stepEvent_inconsistent hdv h2]
      exact ⟨lookupInfo_updateInfo_self _ _ _, rfl⟩

/-- C3: for every id and run, (a) if the id occurs only in events whose
value equals the reference value, the stored (and summarised) line for the
id is the formatted line of its first occurrence — later consistent
occurrences are dropped; (b) an occurrence whose value differs from the
reference replaces the stored entry with its uncheck line and clears the
concurrency flag. -/
theorem C3_node_entries :
    (∀ (evs : List Event) (i : Nat) (r : String) (e0 : Event),
        refOf evs = some r →
        (∀ e ∈ evs, idOf e = i → valOf e = r) →
        firstWith i evs = some e0 →
        lookupInfo (runEvents evs).node_info i = some (consFmt e0) ∧
          consFmt e0 ∈ nodeLines (runEvents evs).node_info) ∧
    (∀ (pre : List Event) (e : Event) (r : String),
        refOf (pre ++ [e]) = some r → valOf e ≠ r →
        lookupInfo (runEvents (pre ++ [e])).node_info (idOf e) =
          some (uncheckFmt e) ∧
        (runEvents (pre ++ [e])).concurrency = false) := by
  constructor
  · intro evs i r e0 href hall hf
    have hmain :
        lookupInfo (runEvents evs).node_info i = some (consFmt e0) := by
      cases evs with
      | nil => exact absurd hf (by simp [firstWith])
      | cons e1 evs =>
          have hval : valOf e1 = r := by simpa [refOf] using href
          unfold runEvents
          simp only [List.foldl_cons]
          rw [stepEvent_init]
          by_cases hid : idOf e1 = i
          · have he0 : e1 = e0 := by
              unfold firstWith at hf
              rw [List.find?_cons] at hf
              simp only [hid, beq_self_eq_true] at hf
              exact Option.some.inj hf
            rw [foldl_lookup_seen evs
              { decide_value := some (valOf e1), decide_value_write := true,
                concurrency := true, node_number := [idOf e1],
                node_info := [(idOf e1, consFmt e1)],
                time_sum := timeAdd e1, time_count := timeCnt e1 }
              r i (by dsimp only; rw [hval])
              (fun e2 he2 => hall e2 (List.mem_cons_of_mem _ he2))
              (by simp [hid])]
            rw [← he0, ← hid]
            simp [lookupInfo, List.find?_cons]
          · have hf2 : firstWith i evs = some e0 := by
              unfold firstWith at hf ⊢
              rw [List.find?_cons] at hf
              rwa [beq_eq_false_iff_ne.mpr hid] at hf
            rw [foldl_lookup_first evs
              { decide_value := some (valOf e1), decide_value_write := true,
                concurrency := true, node_number := [idOf e1],
                node_info := [(idOf e1, consFmt e1)],
                time_sum := timeAdd e1, time_count := timeCnt e1 }
              r i e0 (by dsimp only; rw [hval])
              (fun e2 he2 => hall e2 (List.mem_cons_of_mem _ he2))
              (by
                intro hmem
                rw [List.mem_singleton] at hmem
                exact hid hmem.symm) hf2]
    exact ⟨hmain, mem_nodeLines hmain⟩
  · intro pre e r h1 h2
    exact uncheck_after pre e r h1 h2

/-- Witness for C3_node_entries: a duplicate consistent id keeps its first
line, and an inconsistent event produces the uncheck entry and clears the
flag. -/
theorem C3_node_entries_witness :
    (lookupInfo
        (runEvents
          [Event.decide 3 "5", Event.decide 3 "5", Event.decide 7 "5"]).node_info
        3 = some (consFmt (Event.decide 3 "5")) ∧
      consFmt (Event.decide 3 "5") ∈
        nodeLines
          (runEvents
            [Event.decide 3 "5", Event.decide 3 "5", Event.decide 7 "5"]).node_info) ∧
    (lookupInfo
        (runEvents ([Event.decide 1 "5"] ++ [Event.leader 2 "9" "40"])).node_info
        2 = some (uncheckFmt (Event.leader 2 "9" "40")) ∧
      (runEvents ([Event.decide 1 "5"] ++ [Event.leader 2 "9" "40"])).concurrency =
        false) :=
  ⟨C3_node_entries.1
      [Event.decide 3 "5", Event.decide 3 "5", Event.decide 7 "5"] 3 "5"
      (Event.decide 3 "5") (by decide) (by decide) (by decide),
    C3_node_entries.2 [Event.decide 1 "5"] (Event.leader 2 "9" "40") "5"
      (by decide) (by decide)⟩

/-- No text line carries an average; only `avgTime` does. -/
theorem filterMap_avgOf_texts (l : List String) :
    (l.map SLine.text).filterMap avgOf = [] := by
  induction l with
  | nil => rfl
  | cons x l ih => simp [avgOf, ih]

/-- C4: the concurrency flag starts true, is cleared by the first event
disagreeing with the reference value, never returns to true, and the
banner heads the summary exactly when the flag is false at end of
stream. -/
theorem C4_concurrency_flag :
    initCore.concurrency = true ∧
    (∀ (s : Core) (e : Event), s.concurrency = false →
        (stepEvent s e).concurrency = false) ∧
    (∀ (pre : List Event) (e : Event) (post : List Event) (r : String),
        refOf (pre ++ e :: post) = some r → valOf e ≠ r →
        (runEvents (pre ++ e :: post)).concurrency = false) ∧
    (∀ (evs : List Event) (r : String), refOf evs = some r →
        (∀ e ∈ evs, valOf e = r) → (runEvents evs).concurrency = true) ∧
    (∀ (s : Core) (param : List String),
        ((writeSummary s param).1.head? = some (SLine.text bannerStr)) ↔
          s.concurrency = false) := by
  refine ⟨rfl, fun s e h => stepEvent_conc_false e h, ?_, ?_, ?_⟩
  · intro pre e post r href hv
    cases pre with
    | nil =>
        have : valOf e = r := by simpa [refOf] using href
        exact absurd this hv
    | cons e1 pre =>
        have hval : valOf e1 = r := by simpa [refOf] using href
        have hdv : (runEvents (e1 :: pre)).decide_value = some r := by
          rw [runEvents_decide_value, refOf, hval]
        show (List.foldl stepEvent initCore ((e1 :: pre) ++ e :: post)).concurrency = false
        rw [List.foldl_append]
        simp only [List.foldl_cons]
        exact foldl_conc_false post _
          (by
            have hdv2 :
                (List.foldl stepEvent (stepEvent initCore e1) pre).decide_value =
                  some r := hdv
            rw [stepEvent_inconsistent hdv2 hv])
  · intro evs r href hall
    cases evs with
    | nil => exact absurd href (by simp [refOf])
    | cons e evs =>
        have hval : valOf e = r := by simpa [refOf] using href
        unfold runEvents
        simp only [List.foldl_cons]
        rw [stepEvent_init]
        rw [foldl_conc_consistent evs
          { decide_value := some (valOf e), decide_value_write := true,
            concurrency := true, node_number := [idOf e],
            node_info := [(idOf e, consFmt e)],
            time_sum := timeAdd e, time_count := timeCnt e } r
          (by dsimp only; rw [hval])
          (fun e2 he2 => hall e2 (List.mem_cons_of_mem _ he2))]
  · intro s param
    by_cases hcf : s.concurrency = false
    · by_cases htc : s.time_count = 0 <;>
        simp [writeSummary, hcf, htc]
    · have hct : s.concurrency = true := by
        revert hcf
        cases s.concurrency <;> simp
      by_cases htc : s.time_count = 0 <;>
        simp [writeSummary, hct, htc]

/-- Witness for C4_concurrency_flag: concrete instances of the clearing,
the all-consistent, and the banner conjuncts. -/
theorem C4_concurrency_flag_witness :
    (stepEvent (runEvents [Event.decide 1 "5", Event.decide 2 "7"])
        (Event.decide 9 "5")).concurrency = false ∧
    (runEvents ([Event.decide 1 "5"] ++ Event.decide 2 "7" :: [])).concurrency =
      false ∧
    (runEvents [Event.decide 1 "5", Event.decide 3 "5"]).concurrency = true ∧
    (writeSummary (runEvents [Event.decide 1 "5", Event.decide 2 "7"])
        []).1.head? = some (SLine.text bannerStr) :=
  ⟨C4_concurrency_flag.2.1 _ _ (by decide),
    C4_concurrency_flag.2.2.1 [Event.decide 1 "5"] (Event.decide 2 "7") []
      "5" (by decide) (by decide),
    C4_concurrency_flag.2.2.2.1 [Event.decide 1 "5", Event.decide 3 "5"]
      "5" (by decide) (by decide),
    (C4_concurrency_flag.2.2.2.2
        (runEvents [Event.decide 1 "5", Event.decide 2 "7"]) []).mpr
      (by decide)⟩

/-- C5: the reference value of a run over log lines is the value of the
first event matched after the 8-INFO-line threshold (none when no line
matches), and once latched it never changes when the run is extended. -/
theorem C5_reference_value :
    (∀ lines : List String,
        (run lines).core.decide_value = refOf (eventsOf 0 lines)) ∧
    (∀ (lines more : List String) (r : String),
        (run lines).core.decide_value = some r →
        (run (lines ++ more)).core.decide_value = some r) := by
  constructor
  · intro lines
    rw [run_core, runEvents_decide_value]
  · intro lines more r h
    unfold run at h ⊢
    rw [List.foldl_append, foldl_stepLine_core more]
    exact foldl_dv_some _ _ _ h

/-- Witness for C5_reference_value: the reference latched by `c1log` stays
latched when more lines follow. -/
theorem C5_reference_value_witness :
    (run (c1log ++ ["[DEBUG] done"])).core.decide_value = some "5" :=
  C5_reference_value.2 c1log ["[DEBUG] done"] "5" (by decide)

/-- C6: the run's timing accumulator sums and counts exactly the
first-seen, consistent Pattern-B events (inconsistent or duplicate leader
lines contribute to neither), and when at least one qualifying event
exists the summary carries exactly one average-time line whose value is
that sum divided by that count (the Python float is modelled as the exact
rational; the literal prefix and `ms` suffix are part of the `avgTime`
line's rendering). -/
theorem C6_average_time (evs : List Event) (param : List String) :
    ((runEvents evs).time_sum = (specTimeTop evs).1 ∧
      (runEvents evs).time_count = (specTimeTop evs).2) ∧
    ((specTimeTop evs).2 ≠ 0 →
      (writeSummary (runEvents evs) param).1.filterMap avgOf =
        [((specTimeTop evs).1 : ℚ) / ((specTimeTop evs).2 : ℚ)]) := by
  obtain ⟨h1, h2⟩ := runEvents_time evs
  refine ⟨⟨h1, h2⟩, ?_⟩
  intro hne
  unfold writeSummary
  rw [if_neg (by rw [h2]; exact hne)]
  by_cases hcf : (runEvents evs).concurrency = false <;>
    simp [hcf, avgOf, filterMap_avgOf_texts, h1, h2]

/-- Witness for C6_average_time with one qualifying leader event. -/
theorem C6_average_time_witness :
    (writeSummary (runEvents [Event.leader 2 "7" "40"]) []).1.filterMap avgOf =
      [((specTimeTop [Event.leader 2 "7" "40"]).1 : ℚ) /
        ((specTimeTop [Event.leader 2 "7" "40"]).2 : ℚ)] :=
  (C6_average_time [Event.leader 2 "7" "40"] []).2 (by decide)

/-- C7: when the average-time line does not crash, the summary is written
in layout-2 order — banner (only if the flag is false), average-time line,
parameter header, the parameter file verbatim, node header, then the
stored node entries in ascending numeric id order (a sorted permutation of
the stored keys), regardless of input order. -/
theorem C7_summary_layout (s : Core) (param : List String)
    (h : s.time_count ≠ 0) :
    ∃ ks : List Nat,
      List.Sorted (· ≤ ·) ks ∧ ks.Perm (s.node_info.map Prod.fst) ∧
      (writeSummary s param).1 =
        (if s.concurrency = false then [SLine.text bannerStr] else []) ++
          [SLine.avgTime ((s.time_sum : ℚ) / (s.time_count : ℚ))] ++
          [SLine.text paramHeaderStr] ++ param.map SLine.text ++
          [SLine.text nodeHeaderStr] ++
          (ks.filterMap (lookupInfo s.node_info)).map SLine.text := by
  refine ⟨List.insertionSort (· ≤ ·) (s.node_info.map Prod.fst),
    List.sorted_insertionSort _ _, List.perm_insertionSort _ _, ?_⟩
  unfold writeSummary nodeLines
  rw [if_neg h]

/-- Witness for C7_summary_layout at a concrete one-leader run. -/
theorem C7_summary_layout_witness :
    ∃ ks : List Nat,
      List.Sorted (· ≤ ·) ks ∧
      ks.Perm ((runEvents [Event.leader 2 "7" "40"]).node_info.map Prod.fst) ∧
      (writeSummary (runEvents [Event.leader 2 "7" "40"]) ["p1"]).1 =
        (if (runEvents [Event.leader 2 "7" "40"]).concurrency = false then
            [SLine.text bannerStr]
          else []) ++
          [SLine.avgTime
            (((runEvents [Event.leader 2 "7" "40"]).time_sum : ℚ) /
              ((runEvents [Event.leader 2 "7" "40"]).time_count : ℚ))] ++
          [SLine.text paramHeaderStr] ++ ["p1"].map SLine.text ++
          [SLine.text nodeHeaderStr] ++
          (ks.filterMap
            (lookupInfo (runEvents [Event.leader 2 "7" "40"]).node_info)).map
            SLine.text :=
  C7_summary_layout (runEvents [Event.leader 2 "7" "40"]) ["p1"] (by decide)

/-- C8: the info output is exactly the INFO-tagged lines of the input from
the 9th onward, verbatim and in order; the first 8 INFO lines and all
non-INFO lines never appear in it. -/
theorem C8_info_output (lines : List String) :
    (run lines).info_out =
      (lines.filter (fun l => startsTag "[INFO]" l)).drop 8 := by
  unfold run
  rw [foldl_stepLine_info]
  simp [initSt]

/-- C9: the debug output is exactly the DEBUG-tagged lines of the input,
verbatim and in order; the 8-INFO-line threshold plays no role in it. -/
theorem C9_debug_output (lines : List String) :
    (run lines).debug_out = lines.filter (fun l => startsTag "[DEBUG]" l) := by
  unfold run
  rw [foldl_stepLine_debug]
  simp [initSt]

/-- C10: values are compared as raw digit strings, not numerically: an
event whose value is numerically equal to the reference value (`pyInt`
agrees) but textually different is treated as disagreeing — it gets an
uncheck entry and clears the concurrency flag. -/
theorem C10_textual_compare (pre : List Event) (e : Event) (r : String)
    (h1 : refOf (pre ++ [e]) = some r) (h2 : valOf e ≠ r)
    (h3 : pyInt (valOf e) = pyInt r) :
    lookupInfo (runEvents (pre ++ [e])).node_info (idOf e) =
      some (uncheckFmt e) ∧
    (runEvents (pre ++ [e])).concurrency = false :=
  uncheck_after pre e r h1 h2

/-- Witness for C10_textual_compare: `"05"` versus the reference `"5"`. -/
theorem C10_textual_compare_witness :
    lookupInfo
        (runEvents ([Event.decide 1 "5"] ++ [Event.decide 2 "05"])).node_info
        2 = some (uncheckFmt (Event.decide 2 "05")) ∧
    (runEvents ([Event.decide 1 "5"] ++ [Event.decide 2 "05"])).concurrency =
      false :=
  C10_textual_compare [Event.decide 1 "5"] (Event.decide 2 "05") "5"
    (by decide) (by decide) (by decide)
